import Mathlib

/-!
Verification of the Ghost Lexical content-tree builder
(`AdminPlugin._content_to_lexical` in `src/plugins/adminplugin.py`)
and of the state mutators of `src/utils/state_manager.py`.

The Python routine is embedded shallowly: strings become `List Char`,
`dict` inputs become an explicit inductive, and the one place where the
Python code could raise (`header.split()[0]` on an empty token list)
is modelled with `Option`.
-/

namespace BlogCore

/-- Whitespace predicate used by Python `str.strip()` / `str.split()`
(ASCII whitespace characters). -/
def isSpace (c : Char) : Bool :=
  c == ' ' || c == '\t' || c == '\n' || c == '\r' || c == '\x0b' || c == '\x0c'

/-- A character equal to `#` (for `str.lstrip('#')`). -/
def isHash (c : Char) : Bool := c == '#'

/-- Python `str.strip()`: drop leading and trailing whitespace. -/
def strip (l : List Char) : List Char :=
  ((l.dropWhile isSpace).reverse.dropWhile isSpace).reverse

/-- Whether the text contains the two-character blank-line separator
`"\n\n"` anywhere (the separator of Python `content.split('\n\n')`). -/
def hasNN : List Char → Bool
  | [] => false
  | c :: rest => (c == '\n' && rest.head? == some '\n') || hasNN rest

/-- Python `content.split('\n\n')`: split on each leftmost,
non-overlapping occurrence of the two-newline separator. -/
def splitNN : List Char → List (List Char)
  | [] => [[]]
  | [c] => [[c]]
  | c1 :: c2 :: rest =>
    if c1 == '\n' && c2 == '\n' then [] :: splitNN rest
    else
      match splitNN (c2 :: rest) with
      | [] => [[c1]]
      | h :: t => (c1 :: h) :: t

/-- Python `para.split('\n', 1)`: the first line, and the remainder
after the first line break when there is one. -/
def splitFirstLine : List Char → List Char × Option (List Char)
  | [] => ([], none)
  | c :: rest =>
    if c == '\n' then ([], some rest)
    else ((c :: (splitFirstLine rest).1), (splitFirstLine rest).2)

/-- Worker for `splitWS`: `acc` holds the reversed characters of the
token currently being read. -/
def splitWSAux : List Char → List Char → List (List Char)
  | [], acc => if acc = [] then [] else [acc.reverse]
  | c :: rest, acc =>
    if isSpace c then
      if acc = [] then splitWSAux rest []
      else acc.reverse :: splitWSAux rest []
    else splitWSAux rest (c :: acc)

/-- Python `header.split()`: split on runs of whitespace, dropping
empty pieces. -/
def splitWS (l : List Char) : List (List Char) :=
  splitWSAux l []

/-- A node of the Lexical tree built by `_content_to_lexical`: the
heading dict (with its `tag: h<level>` and single text-run child) or
the paragraph dict (with its single text-run child).  The constant
fields (`format`, `indent`, `version`, text-run attributes) are
restored by the serializer. -/
inductive LexNode where
  | heading (level : Nat) (text : List Char)
  | paragraph (text : List Char)
deriving DecidableEq, Repr

/-- Whether a node is a paragraph node. -/
def isParagraphNode : LexNode → Bool
  | .paragraph _ => true
  | _ => false

/-- Whether a node is a heading node. -/
def isHeadingNode : LexNode → Bool
  | .heading _ _ => true
  | _ => false

/-- The body of the `for` loop of `_content_to_lexical` (lines 67-126):
the nodes contributed by one raw block of the split.  `none` models the
only possible runtime error, an `IndexError` from `header.split()[0]`
were the token list empty. -/
def processBlock (raw : List Char) : Option (List LexNode) :=
  let para := strip raw
  if para = [] then some []
  else if para.head? = some '#' then
    match (splitWS (splitFirstLine para).1).head? with
    | none => none
    | some tok =>
      let node := LexNode.heading tok.length
        (strip ((splitFirstLine para).1.dropWhile isHash))
      match (splitFirstLine para).2 with
      | some r =>
        if strip r = [] then some [node]
        else some [node, LexNode.paragraph (strip r)]
      | none => some [node]
  else some [LexNode.paragraph para]

/-- The accumulation of `children` over all blocks, in source order. -/
def childrenOfBlocks : List (List Char) → Option (List LexNode)
  | [] => some []
  | b :: bs =>
    match processBlock b, childrenOfBlocks bs with
    | some ns, some rest => some (ns ++ rest)
    | _, _ => none

/-- The `content` argument of `_content_to_lexical`: a plain string or
a dictionary with string keys and string values. -/
inductive PyContent where
  | str (s : String)
  | dict (entries : List (String × String))
deriving DecidableEq, Repr

/-- Python `'k' in d` for the dict model. -/
def hasKey (d : List (String × String)) (k : String) : Bool :=
  d.any (fun e => e.1 == k)

/-- Python `d['k']` for the dict model (first matching entry). -/
def lookupKey (d : List (String × String)) (k : String) : Option String :=
  (d.find? (fun e => e.1 == k)).map (fun e => e.2)

/-- Python `repr` of a string with single quotes (ASCII escapes). -/
def pyReprStr (s : String) : String :=
  "'" ++ String.join (s.data.map (fun c =>
    if c == '\\' then "\\\\"
    else if c == '\'' then "\\'"
    else if c == '\n' then "\\n"
    else if c == '\r' then "\\r"
    else if c == '\t' then "\\t"
    else String.mk [c])) ++ "'"

/-- Separator-joined concatenation (as Python `', '.join`). -/
def joinSep (sep : String) : List String → String
  | [] => ""
  | [x] => x
  | x :: y :: ys => x ++ sep ++ joinSep sep (y :: ys)

/-- Python `str(d)` for a dict of strings, e.g. `\x7b'a': 'b'\x7d`. -/
def pyReprDict (d : List (String × String)) : List Char :=
  ("\x7b" ++ joinSep ", "
      (d.map (fun e => pyReprStr e.1 ++ ": " ++ pyReprStr e.2))
    ++ "\x7d").data

/-- Lines 52-60 of `_content_to_lexical`: unwrap a dictionary input
(`if 'content' in content`, then the dead
`elif 'topic' in content and 'content' in content`), then coerce with
`str(...)`. The trailing `.strip()` of line 60 is applied by the
caller `lexicalChildren`. -/
def coerceContent : PyContent → List Char
  | .str s => s.data
  | .dict d =>
    if hasKey d "content" then ((lookupKey d "content").getD "").data
    else if hasKey d "topic" && hasKey d "content" then
      ((lookupKey d "content").getD "").data
    else pyReprDict d

/-- The ordered `children` of the root node produced by
`_content_to_lexical` (lines 60-126): strip, split on blank lines,
process each block in order. -/
def lexicalChildren (inp : PyContent) : Option (List LexNode) :=
  childrenOfBlocks (splitNN (strip (coerceContent inp)))

/-- Lowercase hex digit. -/
def hexChar (n : Nat) : Char :=
  if n < 10 then Char.ofNat (48 + n) else Char.ofNat (87 + n)

/-- Four lowercase hex digits of a JSON unicode escape. -/
def uHex (n : Nat) : String :=
  String.mk [hexChar (n / 4096 % 16), hexChar (n / 256 % 16),
    hexChar (n / 16 % 16), hexChar (n % 16)]

/-- The escaping `json.dumps` (default `ensure_ascii=True`) applies to
one character of a string value. -/
def jsonEscapeChar (c : Char) : String :=
  if c == '"' then "\\\""
  else if c == '\\' then "\\\\"
  else if c == '\n' then "\\n"
  else if c == '\r' then "\\r"
  else if c == '\t' then "\\t"
  else if c == '\x08' then "\\b"
  else if c == '\x0c' then "\\f"
  else if c.toNat < 32 then "\\u" ++ uHex c.toNat
  else if c.toNat < 128 then String.mk [c]
  else if c.toNat < 65536 then "\\u" ++ uHex c.toNat
  else
    "\\u" ++ uHex (55296 + (c.toNat - 65536) / 1024)
      ++ "\\u" ++ uHex (56320 + (c.toNat - 65536) % 1024)

/-- `json.dumps` of a string value. -/
def jsonString (s : List Char) : String :=
  "\"" ++ String.join (s.map jsonEscapeChar) ++ "\""

/-- `json.dumps` of the text-run dict built at lines 83-90 / 101-108 /
117-124 (key order is dict insertion order; separators are the
`json.dumps` defaults `', '` and `': '`). -/
def serTextRun (text : List Char) : String :=
  "\x7b\"type\": \"text\", \"text\": " ++ jsonString text
    ++ ", \"format\": 0, \"detail\": 0, \"mode\": \"normal\", \"style\": \"\"\x7d"

/-- `json.dumps` of one child node dict. -/
def serNode : LexNode → String
  | .heading level text =>
    "\x7b\"type\": \"heading\", \"tag\": \"h" ++ toString level
      ++ "\", \"format\": \"\", \"indent\": 0, \"version\": 1, \"children\": ["
      ++ serTextRun text ++ "]\x7d"
  | .paragraph text =>
    "\x7b\"type\": \"paragraph\", \"format\": \"\", \"indent\": 0, \"version\": 1, \"children\": ["
      ++ serTextRun text ++ "]\x7d"

/-- `json.dumps(lexical)` for the root wrapper of lines 130-140. -/
def serDoc (children : List LexNode) : String :=
  "\x7b\"root\": \x7b\"type\": \"root\", \"format\": \"\", \"indent\": 0, \"version\": 1, \"children\": ["
    ++ joinSep ", " (children.map serNode) ++ "]\x7d\x7d"

/-- `_content_to_lexical` end to end: the returned JSON string, `none`
modelling an uncaught exception. -/
def contentToLexical (inp : PyContent) : Option String :=
  (lexicalChildren inp).map serDoc

/-- First line of a block (`parts[0]`). -/
def firstLine (para : List Char) : List Char := (splitFirstLine para).1

/-- Remainder of a block after the first line break (`parts[1]`,
empty when the block is a single line). -/
def restLines (para : List Char) : List Char :=
  ((splitFirstLine para).2).getD []

/-- The first whitespace-delimited token (`header.split()[0]`),
empty when there is none. -/
def firstToken (l : List Char) : List Char :=
  ((splitWS l).head?).getD []

/-- The count of leading `#` characters of a line. -/
def leadingHashCount (l : List Char) : Nat :=
  (l.takeWhile isHash).length

end BlogCore

namespace StateStore

/-- A JSON-like value stored in the state dictionary of
`src/utils/state_manager.py`. -/
inductive JVal where
  | str (s : String)
  | arr (elems : List JVal)
  | obj (fields : List (String × JVal))

/-- The in-memory `self.state` dictionary. -/
def State : Type := List (String × JVal)

/-- Python `st[k] = v`: replace the first entry with key `k` in place,
or append a fresh entry. -/
def setKey : List (String × JVal) → String → JVal → List (String × JVal)
  | [], k, v => [(k, v)]
  | e :: rest, k, v =>
    if e.1 = k then (k, v) :: rest else e :: setKey rest k v

/-- Python `st.get(k)`. -/
def getKey (st : List (String × JVal)) (k : String) : Option JVal :=
  (st.find? (fun e => e.1 == k)).map (fun e => e.2)

/-- `StateManager.clear_history` (line 66 of `state_manager.py`):
`self.state['chat_history'] = []`.  The subsequent `_save_state` only
writes the state to disk and is outside the value model. -/
def clear_history (st : List (String × JVal)) : List (String × JVal) :=
  setKey st "chat_history" (.arr [])

/-- `StateManager.add_topics` (lines 48-49): store the topics and
refresh `last_updated` with the current time, passed here explicitly. -/
def add_topics (st : List (String × JVal)) (topics : List String)
    (now : String) : List (String × JVal) :=
  setKey (setKey st "topics" (.arr (topics.map .str))) "last_updated" (.str now)

end StateStore

namespace BlogCore

/-- The trimmed text sits inside the original: `strip` only removes a
prefix and a suffix. -/
theorem strip_decomp (l : List Char) : ∃ u w, l = u ++ strip l ++ w := by
  refine ⟨l.takeWhile isSpace,
    ((l.dropWhile isSpace).reverse.takeWhile isSpace).reverse, ?_⟩
  have h1 : l.takeWhile isSpace ++ l.dropWhile isSpace = l :=
    List.takeWhile_append_dropWhile isSpace l
  have h2 : (l.dropWhile isSpace).reverse.takeWhile isSpace ++
      (l.dropWhile isSpace).reverse.dropWhile isSpace =
      (l.dropWhile isSpace).reverse :=
    List.takeWhile_append_dropWhile isSpace (l.dropWhile isSpace).reverse
  have h3 : l.dropWhile isSpace =
      strip l ++ ((l.dropWhile isSpace).reverse.takeWhile isSpace).reverse := by
    have h4 := congrArg List.reverse h2
    rw [List.reverse_append, List.reverse_reverse] at h4
    rw [strip]
    exact h4.symm
  calc l = l.takeWhile isSpace ++ l.dropWhile isSpace := h1.symm
    _ = l.takeWhile isSpace ++ (strip l ++
          ((l.dropWhile isSpace).reverse.takeWhile isSpace).reverse) := by rw [← h3]
    _ = _ := by simp

/-- A blank-line separator inside the right part is one inside the whole. -/
theorem hasNN_append_right (u v : List Char) (h : hasNN v = true) :
    hasNN (u ++ v) = true := by
  induction u with
  | nil => simpa using h
  | cons c t ih => simp [hasNN, ih]

/-- A blank-line separator inside the left part is one inside the whole. -/
theorem hasNN_append_left (u v : List Char) (h : hasNN u = true) :
    hasNN (u ++ v) = true := by
  induction u with
  | nil => simp [hasNN] at h
  | cons c t ih =>
    rw [hasNN, Bool.or_eq_true] at h
    rcases h with h | h
    · rw [Bool.and_eq_true, beq_iff_eq, beq_iff_eq] at h
      obtain ⟨hc, hh⟩ := h
      obtain ⟨c2, t2, rfl⟩ : ∃ c2 t2, t = c2 :: t2 := by
        cases t with
        | nil => simp at hh
        | cons a b => exact ⟨a, b, rfl⟩
      simp only [List.head?] at hh
      simp [hasNN, hc, hh]
    · simp [hasNN, ih h]

/-- A blank-line separator that survives trimming was already there. -/
theorem hasNN_strip (l : List Char) (h : hasNN (strip l) = true) :
    hasNN l = true := by
  obtain ⟨u, w, hd⟩ := strip_decomp l
  rw [hd, List.append_assoc]
  exact hasNN_append_right _ _ (hasNN_append_left _ _ h)

/-- Contrapositive form of `hasNN_strip`. -/
theorem hasNN_strip_false (l : List Char) (h : hasNN l = false) :
    hasNN (strip l) = false := by
  cases h2 : hasNN (strip l) with
  | false => rfl
  | true => rw [hasNN_strip l h2] at h; exact Bool.noConfusion h

/-- Text without any newline has no blank-line separator. -/
theorem hasNN_of_no_newline (l : List Char) (h : ∀ c ∈ l, c ≠ '\n') :
    hasNN l = false := by
  induction l with
  | nil => rfl
  | cons c t ih =>
    have hc : (c == '\n') = false := by
      simpa using h c (by simp)
    simp [hasNN, hc, ih (fun x hx => h x (by simp [hx]))]

/-- `splitNN` never returns the empty list of blocks. -/
theorem splitNN_ne_nil (l : List Char) : splitNN l ≠ [] := by
  match l with
  | [] => simp [splitNN]
  | [c] => simp [splitNN]
  | c1 :: c2 :: rest =>
    rw [splitNN]
    split
    · simp
    · cases h : splitNN (c2 :: rest) <;> simp

/-- Source without a blank-line separator is a single block. -/
theorem splitNN_no_sep (l : List Char) (h : hasNN l = false) :
    splitNN l = [l] := by
  induction l using splitNN.induct with
  | case1 => rfl
  | case2 c => rfl
  | case3 c1 c2 rest hg ih =>
    rw [Bool.and_eq_true, beq_iff_eq, beq_iff_eq] at hg
    simp [hasNN, hg.1, hg.2] at h
  | case4 c1 c2 rest hg hnil ih =>
    exact absurd hnil (splitNN_ne_nil (c2 :: rest))
  | case5 c1 c2 rest hg b t hbt ih =>
    have h2 : hasNN (c2 :: rest) = false := by
      rw [hasNN] at h
      exact (by simpa using h :
        (c1 = '\n' → ¬c2 = '\n') ∧ hasNN (c2 :: rest) = false).2
    rw [splitNN, if_neg hg, ih h2]

/-- Splitting after a newline-free leading block peels it off. -/
theorem splitNN_append (a r : List Char) (h : ∀ c ∈ a, c ≠ '\n') :
    splitNN (a ++ '\n' :: '\n' :: r) = a :: splitNN r := by
  induction a with
  | nil => simp [splitNN]
  | cons c a' ih =>
    have hc : (c == '\n') = false := by simpa using h c (by simp)
    have ih' := ih (fun x hx => h x (by simp [hx]))
    cases a' with
    | nil =>
      show splitNN (c :: '\n' :: '\n' :: r) = [c] :: splitNN r
      rw [splitNN, if_neg (by simp [hc])]
      rw [show splitNN ('\n' :: '\n' :: r) = [] :: splitNN r by
        rw [splitNN, if_pos (by simp)]]
    | cons c2 a'' =>
      show splitNN (c :: c2 :: (a'' ++ '\n' :: '\n' :: r)) =
        (c :: c2 :: a'') :: splitNN r
      rw [splitNN, if_neg (by simp [hc])]
      rw [show (c2 :: (a'' ++ '\n' :: '\n' :: r)) =
        ((c2 :: a'') ++ '\n' :: '\n' :: r) by simp]
      rw [ih']

/-- With a token under construction, the worker finishes that token
with the maximal run of non-space characters ahead. -/
theorem splitWSAux_token (l : List Char) :
    ∀ acc : List Char, acc ≠ [] →
      splitWSAux l acc = (acc.reverse ++ l.takeWhile (fun x => !isSpace x)) ::
        splitWSAux (l.dropWhile (fun x => !isSpace x)) [] := by
  induction l with
  | nil =>
    intro acc hacc
    simp [splitWSAux, hacc]
  | cons c rest ih =>
    intro acc hacc
    cases hs : isSpace c with
    | true =>
      rw [splitWSAux, if_pos hs, if_neg hacc]
      rw [List.takeWhile_cons, List.dropWhile_cons]
      simp only [hs, Bool.not_true, Bool.false_eq_true, if_false]
      rw [show splitWSAux (c :: rest) [] = splitWSAux rest [] by
        rw [splitWSAux, if_pos hs]; simp]
      simp
    | false =>
      rw [splitWSAux, if_neg (by simp [hs])]
      rw [ih (c :: acc) (by simp)]
      rw [List.takeWhile_cons, List.dropWhile_cons]
      simp [hs]

/-- A line beginning with a non-space character has a first token:
that character followed by the non-space run after it. -/
theorem splitWS_cons (c : Char) (rest : List Char) (h : isSpace c = false) :
    splitWS (c :: rest) = (c :: rest.takeWhile (fun x => !isSpace x)) ::
      splitWSAux (rest.dropWhile (fun x => !isSpace x)) [] := by
  rw [splitWS, splitWSAux, if_neg (by simp [h])]
  rw [splitWSAux_token rest [c] (by simp)]
  simp

/-- Dropping by `p` leaves nothing for `p` to take. -/
theorem takeWhile_dropWhile_nil (p : Char → Bool) (l : List Char) :
    (l.dropWhile p).takeWhile p = [] := by
  induction l with
  | nil => rfl
  | cons c t ih =>
    cases hc : p c with
    | true => rw [List.dropWhile_cons, if_pos hc]; exact ih
    | false => rw [List.dropWhile_cons, if_neg (by simp [hc])]
               rw [List.takeWhile_cons, if_neg (by simp [hc])]

/-- If taking by `p` yields nothing on a non-empty list, its head
fails `p`. -/
theorem takeWhile_eq_nil_head (p : Char → Bool) (c : Char) (t : List Char)
    (h : (c :: t).takeWhile p = []) : p c = false := by
  cases hp : p c with
  | false => rfl
  | true =>
    rw [List.takeWhile_cons, if_pos hp] at h
    exact absurd h (by simp)

/-- Taking by `p` yields nothing on an extension of a non-empty list
on which it yields nothing. -/
theorem takeWhile_nil_append (p : Char → Bool) (u v : List Char)
    (hu : u.takeWhile p = []) (hne : u ≠ []) :
    (u ++ v).takeWhile p = [] := by
  cases u with
  | nil => exact absurd rfl hne
  | cons c t =>
    have hc := takeWhile_eq_nil_head p c t hu
    rw [List.cons_append, List.takeWhile_cons, if_neg (by simp [hc])]

/-- Two predicates take the same initial run when the second implies
the first and holds on everything the first takes. -/
theorem takeWhile_eq_of_imp (p q : Char → Bool) (l : List Char)
    (himp : ∀ c, q c = true → p c = true)
    (hall : ∀ c ∈ l.takeWhile p, q c = true) :
    l.takeWhile q = l.takeWhile p := by
  induction l with
  | nil => rfl
  | cons c t ih =>
    cases hp : p c with
    | false =>
      have hq : q c = false := by
        cases hq2 : q c with
        | false => rfl
        | true => rw [himp c hq2] at hp; exact absurd hp (by simp)
      rw [List.takeWhile_cons, if_neg (by simp [hq]),
        List.takeWhile_cons, if_neg (by simp [hp])]
    | true =>
      have hmem : ∀ x ∈ t.takeWhile p, q x = true := by
        intro x hx
        refine hall x ?_
        rw [List.takeWhile_cons, if_pos hp]
        exact List.mem_cons_of_mem c hx
      have hqc : q c = true := by
        refine hall c ?_
        rw [List.takeWhile_cons, if_pos hp]
        exact List.mem_cons_self c _
      rw [List.takeWhile_cons, if_pos hqc, List.takeWhile_cons, if_pos hp,
        ih hmem]

/-- The trimmed text does not begin with whitespace. -/
theorem strip_takeWhile (l : List Char) :
    (strip l).takeWhile isSpace = [] := by
  cases h : strip l with
  | nil => rfl
  | cons e t =>
    have h2 : (l.dropWhile isSpace).reverse.takeWhile isSpace ++
        (l.dropWhile isSpace).reverse.dropWhile isSpace =
        (l.dropWhile isSpace).reverse :=
      List.takeWhile_append_dropWhile isSpace (l.dropWhile isSpace).reverse
    have h4 := congrArg List.reverse h2
    rw [List.reverse_append, List.reverse_reverse] at h4
    have hd1 : l.dropWhile isSpace = strip l ++
        ((l.dropWhile isSpace).reverse.takeWhile isSpace).reverse := by
      rw [strip]; exact h4.symm
    have htk : (l.dropWhile isSpace).takeWhile isSpace = [] :=
      takeWhile_dropWhile_nil isSpace l
    rw [hd1, h] at htk
    rw [List.cons_append, List.takeWhile_cons] at htk
    cases he : isSpace e with
    | false => rw [List.takeWhile_cons, if_neg (by simp [he])]
    | true => rw [if_pos he] at htk; exact absurd htk (by simp)

/-- The trimmed text does not end with whitespace. -/
theorem strip_reverse_takeWhile (l : List Char) :
    (strip l).reverse.takeWhile isSpace = [] := by
  rw [strip, List.reverse_reverse]
  exact takeWhile_dropWhile_nil isSpace (l.dropWhile isSpace).reverse

/-- Text with no leading and no trailing whitespace is its own trim. -/
theorem strip_eq_self_of_parts (l : List Char)
    (h1 : l.takeWhile isSpace = []) (h2 : l.reverse.takeWhile isSpace = []) :
    strip l = l := by
  have hd : l.dropWhile isSpace = l := by
    have := List.takeWhile_append_dropWhile isSpace l
    rw [h1] at this
    simpa using this
  have hr : l.reverse.dropWhile isSpace = l.reverse := by
    have := List.takeWhile_append_dropWhile isSpace l.reverse
    rw [h2] at this
    simpa using this
  rw [strip, hd, hr, List.reverse_reverse]

/-- Python `strip` is idempotent. -/
theorem strip_idem (l : List Char) : strip (strip l) = strip l :=
  strip_eq_self_of_parts (strip l) (strip_takeWhile l) (strip_reverse_takeWhile l)

/-- A trim-fixed text has no leading and no trailing whitespace. -/
theorem strip_fixed_parts (l : List Char) (h : strip l = l) :
    l.takeWhile isSpace = [] ∧ l.reverse.takeWhile isSpace = [] := by
  constructor
  · rw [← h]; exact strip_takeWhile l
  · rw [← h]; exact strip_reverse_takeWhile l

/-- Dropping by `p` over text all satisfying `p` leaves nothing. -/
theorem dropWhile_eq_nil_of_all (p : Char → Bool) (l : List Char)
    (h : ∀ c ∈ l, p c = true) : l.dropWhile p = [] := by
  induction l with
  | nil => rfl
  | cons c t ih =>
    rw [List.dropWhile_cons, if_pos (h c (by simp))]
    exact ih (fun x hx => h x (by simp [hx]))

/-- Whitespace-only text trims to nothing. -/
theorem strip_all_space (l : List Char) (h : ∀ c ∈ l, isSpace c = true) :
    strip l = [] := by
  rw [strip, dropWhile_eq_nil_of_all isSpace l h]
  rfl

/-- The first line of a block keeps the block's first character when
that character is not a newline. -/
theorem firstLine_cons (para : List Char) (c : Char)
    (h : para.head? = some c) (hc : (c == '\n') = false) :
    ∃ t0, firstLine para = c :: t0 := by
  cases para with
  | nil => simp at h
  | cons a rest =>
    obtain rfl : a = c := by simpa using h
    refine ⟨(splitFirstLine rest).1, ?_⟩
    rw [firstLine, splitFirstLine, if_neg (by simp_all)]

/-- A block empty after trimming contributes nothing. -/
theorem processBlock_empty (raw : List Char) (h : strip raw = []) :
    processBlock raw = some [] := by
  simp only [processBlock]
  rw [if_pos h]

/-- A non-empty block not starting with `#` contributes exactly one
paragraph holding the trimmed block. -/
theorem processBlock_paragraph (raw : List Char) (h1 : strip raw ≠ [])
    (h2 : ¬(strip raw).head? = some '#') :
    processBlock raw = some [LexNode.paragraph (strip raw)] := by
  simp only [processBlock]
  rw [if_neg h1, if_neg h2]

/-- A non-empty block starting with `#` contributes one heading whose
level is the length of the first whitespace-delimited token of its
first line and whose text is the first line with leading `#` and
whitespace stripped, followed by one paragraph exactly when the rest
of the block is non-blank. -/
theorem processBlock_heading (raw : List Char) (h1 : strip raw ≠ [])
    (h2 : (strip raw).head? = some '#') :
    processBlock raw =
      some (LexNode.heading (firstToken (firstLine (strip raw))).length
        (strip ((firstLine (strip raw)).dropWhile isHash)) ::
        (if strip (restLines (strip raw)) = [] then []
         else [LexNode.paragraph (strip (restLines (strip raw)))])) := by
  obtain ⟨t0, ht0⟩ := firstLine_cons (strip raw) '#' h2 (by decide)
  simp only [processBlock]
  rw [if_neg h1, if_pos h2]
  cases hws2 : (splitWS (splitFirstLine (strip raw)).1).head? with
  | none =>
    rw [show (splitFirstLine (strip raw)).1 = firstLine (strip raw) from rfl,
      ht0, splitWS_cons '#' t0 (by decide)] at hws2
    exact absurd hws2 (by simp)
  | some tok =>
    have htok : firstToken (firstLine (strip raw)) = tok := by
      rw [firstToken, firstLine, hws2]
      rfl
    rw [htok]
    cases hr : (splitFirstLine (strip raw)).2 with
    | none =>
      have hrl : restLines (strip raw) = [] := by
        rw [restLines, hr]
        rfl
      rw [hrl]
      rw [if_pos (show strip [] = [] from rfl)]
      rfl
    | some r =>
      have hrl : restLines (strip raw) = r := by
        rw [restLines, hr]
        rfl
      rw [hrl]
      by_cases hre : strip r = []
      · rw [if_pos hre]
        simp [firstLine, hre]
      · rw [if_neg hre]
        simp [firstLine, hre]

/-- The loop body never raises: every block contributes some node list. -/
theorem processBlock_isSome (raw : List Char) : (processBlock raw).isSome := by
  by_cases h1 : strip raw = []
  · rw [processBlock_empty raw h1]; rfl
  · by_cases h2 : (strip raw).head? = some '#'
    · rw [processBlock_heading raw h1 h2]; rfl
    · rw [processBlock_paragraph raw h1 h2]; rfl

/-- Appending a block's nodes to an already-computed remainder. -/
theorem childrenOfBlocks_cons (b : List Char) (bs : List (List Char))
    (ns rest : List LexNode) (hb : processBlock b = some ns)
    (hbs : childrenOfBlocks bs = some rest) :
    childrenOfBlocks (b :: bs) = some (ns ++ rest) := by
  rw [childrenOfBlocks, hb, hbs]

/-- The whole loop never raises. -/
theorem childrenOfBlocks_isSome (bs : List (List Char)) :
    (childrenOfBlocks bs).isSome := by
  induction bs with
  | nil => rfl
  | cons b t ih =>
    obtain ⟨ns, hb⟩ := Option.isSome_iff_exists.mp (processBlock_isSome b)
    obtain ⟨rest, hr⟩ := Option.isSome_iff_exists.mp ih
    rw [childrenOfBlocks_cons b t ns rest hb hr]
    rfl

end BlogCore

namespace StateStore

/-- Reading back the key just assigned yields the assigned value. -/
theorem getKey_setKey_same (st : List (String × JVal)) (k : String) (v : JVal) :
    getKey (setKey st k v) k = some v := by
  induction st with
  | nil => simp [setKey, getKey, List.find?]
  | cons e rest ih =>
    by_cases h : e.1 = k
    · rw [setKey, if_pos h]
      simp [getKey, List.find?]
    · rw [setKey, if_neg h]
      rw [getKey, List.find?]
      have hb : (e.1 == k) = false := by simpa using h
      rw [hb]
      exact ih

/-- Assigning one key leaves every other key unchanged. -/
theorem getKey_setKey_ne (st : List (String × JVal)) (k : String) (v : JVal)
    (k2 : String) (h : k2 ≠ k) :
    getKey (setKey st k v) k2 = getKey st k2 := by
  induction st with
  | nil =>
    rw [setKey, getKey, List.find?]
    have hb : ((k, v).1 == k2) = false := by
      simpa using fun he => h he.symm
    rw [hb]
    rfl
  | cons e rest ih =>
    by_cases he : e.1 = k
    · rw [setKey, if_pos he]
      rw [getKey, getKey, List.find?, List.find?]
      have hb1 : ((k, v).1 == k2) = false := by
        simpa using fun h2 => h h2.symm
      have hb2 : (e.1 == k2) = false := by
        rw [he]
        simpa using fun h2 => h h2.symm
      rw [hb1, hb2]
    · rw [setKey, if_neg he]
      rw [getKey, getKey, List.find?, List.find?]
      cases hp : e.1 == k2 with
      | true => rfl
      | false => exact ih

end StateStore

namespace BlogCore

/-- C3: `_content_to_lexical` is total over its documented inputs: for
every string input and every mapping input it returns a JSON string and
never raises; in particular `header.split()[0]` never fails, because a
trimmed non-empty block starting with `#` always has a non-empty first
whitespace-delimited token. -/
theorem C3_total :
    (∀ inp : PyContent, (contentToLexical inp).isSome = true) ∧
    (∀ para : List Char, strip para ≠ [] → (strip para).head? = some '#' →
      ((splitWS (firstLine (strip para))).head?).isSome = true) := by
  constructor
  · intro inp
    obtain ⟨v, hv⟩ := Option.isSome_iff_exists.mp
      (childrenOfBlocks_isSome (splitNN (strip (coerceContent inp))))
    rw [contentToLexical,
      show lexicalChildren inp =
        childrenOfBlocks (splitNN (strip (coerceContent inp))) from rfl, hv]
    rfl
  · intro para h1 h2
    obtain ⟨t0, ht0⟩ := firstLine_cons (strip para) '#' h2 (by decide)
    rw [ht0, splitWS_cons '#' t0 (by decide)]
    rfl

/-- C3 witness: the first-token extraction succeeds on the concrete
heading block `"# Title"`. -/
theorem C3_total_witness :
    ((splitWS (firstLine (strip ("# Title").data))).head?).isSome = true :=
  C3_total.2 ("# Title").data (by decide) (by decide)

/-- C6: passing the mapping with a `content` key returns exactly the
same JSON string as passing the string itself; the builder unwraps the
`content` value before any processing. -/
theorem C6_dict_unwrap (s : String) :
    contentToLexical (PyContent.dict [("content", s)]) =
      contentToLexical (PyContent.str s) := rfl

/-- C7: a block empty after trimming produces no node at all, and an
input of only blank lines or whitespace yields a root with an empty
children list. -/
theorem C7_blank_dropped :
    (∀ raw : List Char, strip raw = [] → processBlock raw = some []) ∧
    (∀ s : String, (∀ c ∈ s.data, isSpace c = true) →
      lexicalChildren (PyContent.str s) = some []) := by
  constructor
  · exact processBlock_empty
  · intro s h
    rw [lexicalChildren,
      show coerceContent (PyContent.str s) = s.data from rfl,
      strip_all_space s.data h]
    rfl

/-- C7 witness: the one-space block produces no node, and the
whitespace-only input produces an empty children list. -/
theorem C7_blank_dropped_witness :
    lexicalChildren (PyContent.str "\n \n ") = some [] :=
  C7_blank_dropped.2 "\n \n " (by decide)

/-- C9: for a mapping with a `content` key the output only depends on
that value, whatever other keys (such as `topic`) are present; the
`elif 'topic' in content and 'content' in content` branch is
unreachable, since its guard is false whenever the preceding
`'content' in content` test failed. -/
theorem C9_dict_content_only :
    (∀ d : List (String × String), hasKey d "content" = true →
      contentToLexical (PyContent.dict d) =
        contentToLexical (PyContent.dict
          [("content", (lookupKey d "content").getD "")])) ∧
    (∀ d : List (String × String), hasKey d "content" = false →
      (hasKey d "topic" && hasKey d "content") = false) := by
  constructor
  · intro d h
    have hc : coerceContent (PyContent.dict d) =
        coerceContent (PyContent.dict
          [("content", (lookupKey d "content").getD "")]) := by
      rw [coerceContent, if_pos h, coerceContent,
        if_pos (show hasKey [("content", (lookupKey d "content").getD "")]
          "content" = true by simp [hasKey]),
        show (lookupKey [("content", (lookupKey d "content").getD "")]
          "content").getD "" = (lookupKey d "content").getD "" by
          simp [lookupKey, List.find?]]
    rw [contentToLexical, contentToLexical, lexicalChildren, lexicalChildren, hc]
  · intro d h
    rw [h, Bool.and_false]

/-- C9 witness: a mapping carrying both `topic` and `content` behaves
like the bare `content` mapping. -/
theorem C9_dict_content_only_witness :
    contentToLexical (PyContent.dict [("topic", "T"), ("content", "Hi")]) =
      contentToLexical (PyContent.dict [("content",
        (lookupKey [("topic", "T"), ("content", "Hi")] "content").getD "")]) :=
  C9_dict_content_only.1 [("topic", "T"), ("content", "Hi")] (by decide)

/-- C1 counterexample: for the block `"#Hi"` the trimmed first line
starts with `#` and has exactly one leading `#`, yet the emitted
heading has level 3 (the length of the token `#Hi`), so the level is
not the count of leading `#` characters; and for `"####### B"` the
emitted level is 7, outside 1..6. -/
theorem C1_counterexample :
    (strip ("#Hi").data).head? = some '#' ∧
    leadingHashCount (firstLine (strip ("#Hi").data)) = 1 ∧
    lexicalChildren (PyContent.str "#Hi") =
      some [LexNode.heading 3 ['H', 'i']] ∧
    lexicalChildren (PyContent.str "####### B") =
      some [LexNode.heading 7 ['B']] :=
  ⟨by decide, by decide, by decide, by decide⟩

/-- C1 (amended): for a block whose trimmed first line starts with `#`,
the emitted heading level is at least 1 and equals the count of leading
`#` characters of the first line whenever the first whitespace-delimited
token consists only of `#` characters; in general the level is the
length of that token and is not bounded by 6. -/
theorem C1_level_of_hash_token (raw : List Char) (h1 : strip raw ≠ [])
    (h2 : (strip raw).head? = some '#')
    (h3 : ∀ ch ∈ firstToken (firstLine (strip raw)), ch = '#') :
    ∃ tx rest, processBlock raw =
      some (LexNode.heading (leadingHashCount (firstLine (strip raw))) tx
        :: rest) ∧
      1 ≤ leadingHashCount (firstLine (strip raw)) := by
  obtain ⟨t0, ht0⟩ := firstLine_cons (strip raw) '#' h2 (by decide)
  have htok : firstToken (firstLine (strip raw)) =
      '#' :: t0.takeWhile (fun x => !isSpace x) := by
    rw [firstToken, ht0, splitWS_cons '#' t0 (by decide)]
    rfl
  have hall : ∀ c ∈ t0.takeWhile (fun x => !isSpace x), isHash c = true := by
    intro c hc
    have hmem : c ∈ firstToken (firstLine (strip raw)) := by
      rw [htok]
      exact List.mem_cons_of_mem '#' hc
    simpa [isHash] using h3 c hmem
  have himp : ∀ c, isHash c = true → (fun x => !isSpace x) c = true := by
    intro c hc
    obtain rfl : c = '#' := by simpa [isHash] using hc
    decide
  have hlen : leadingHashCount (firstLine (strip raw)) =
      (firstToken (firstLine (strip raw))).length := by
    rw [leadingHashCount, htok, ht0, List.takeWhile_cons,
      if_pos (show isHash '#' = true by decide),
      takeWhile_eq_of_imp (fun x => !isSpace x) isHash t0 himp hall]
  have hone : 1 ≤ leadingHashCount (firstLine (strip raw)) := by
    rw [hlen, htok]
    exact Nat.succ_le_succ (Nat.zero_le _)
  have hh := processBlock_heading raw h1 h2
  rw [← hlen] at hh
  exact ⟨_, _, hh, hone⟩

/-- C1 witness: for the block `"## Hi"` the first token is all `#` and
the emitted heading level is the leading-`#` count. -/
theorem C1_level_of_hash_token_witness :
    ∃ tx rest, processBlock ("## Hi").data =
      some (LexNode.heading (leadingHashCount (firstLine (strip ("## Hi").data)))
        tx :: rest) ∧
      1 ≤ leadingHashCount (firstLine (strip ("## Hi").data)) :=
  C1_level_of_hash_token ("## Hi").data (by decide) (by decide) (by decide)

/-- C2 counterexample: the empty input has no blank-line separator and
does not lead with `#` (neither raw nor trimmed), yet the output has no
Paragraph node at all instead of exactly one. -/
theorem C2_counterexample :
    hasNN ("").data = false ∧
    ("").data.head? ≠ some '#' ∧
    (strip ("").data).head? ≠ some '#' ∧
    lexicalChildren (PyContent.str "") = some [] ∧
    (lexicalChildren (PyContent.str "")).map
      (fun ns => ns.countP isParagraphNode) = some 0 :=
  ⟨by decide, by decide, by decide, by decide, by decide⟩

/-- C2 (amended): for every input string with no blank-line separator
whose trimmed form is non-empty and does not start with `#`, the output
has exactly one Paragraph node, holding the trimmed input. -/
theorem C2_single_paragraph (s : String) (h0 : hasNN s.data = false)
    (h1 : strip s.data ≠ []) (h2 : ¬(strip s.data).head? = some '#') :
    lexicalChildren (PyContent.str s) =
      some [LexNode.paragraph (strip s.data)] := by
  rw [lexicalChildren,
    show coerceContent (PyContent.str s) = s.data from rfl,
    splitNN_no_sep (strip s.data) (hasNN_strip_false s.data h0)]
  have hb : processBlock (strip s.data) =
      some [LexNode.paragraph (strip s.data)] := by
    have hp := processBlock_paragraph (strip s.data)
      (by rw [strip_idem]; exact h1) (by rw [strip_idem]; exact h2)
    rwa [strip_idem] at hp
  rw [childrenOfBlocks_cons (strip s.data) []
    [LexNode.paragraph (strip s.data)] [] hb rfl]
  simp

/-- C2 witness: the single-block input `"  Hello "` yields exactly the
one paragraph holding its trimmed text. -/
theorem C2_single_paragraph_witness :
    lexicalChildren (PyContent.str "  Hello ") =
      some [LexNode.paragraph (strip ("  Hello ").data)] :=
  C2_single_paragraph "  Hello " (by decide) (by decide) (by decide)

/-- C4: the heading level equals `len(first_token)`, the number of
characters of the first whitespace-delimited token of the first line,
and no upper clamp to 6 is applied: seven `#` give level 7. -/
theorem C4_level_unclamped :
    (∀ raw : List Char, strip raw ≠ [] → (strip raw).head? = some '#' →
      ∃ tx rest, processBlock raw =
        some (LexNode.heading (firstToken (firstLine (strip raw))).length tx
          :: rest)) ∧
    lexicalChildren (PyContent.str "####### B") =
      some [LexNode.heading 7 "B".data] := by
  constructor
  · intro raw h1 h2
    exact ⟨_, _, processBlock_heading raw h1 h2⟩
  · decide

/-- C4 witness: applied to the concrete block `"#Hi"`. -/
theorem C4_level_unclamped_witness :
    ∃ tx rest, processBlock ("#Hi").data =
      some (LexNode.heading
        (firstToken (firstLine (strip ("#Hi").data))).length tx :: rest) :=
  C4_level_unclamped.1 ("#Hi").data (by decide) (by decide)

/-- C5: a trimmed non-empty block whose first line starts with `#`
yields exactly one Heading, followed by exactly one Paragraph holding
the trimmed remainder when that remainder is non-blank and by nothing
otherwise; in particular `"## Sub\nmore on same line"` yields
`Heading(level 2, "Sub")` then `Paragraph("more on same line")`. -/
theorem C5_heading_then_rest :
    (∀ raw : List Char, strip raw ≠ [] → (strip raw).head? = some '#' →
      ∃ lv tx, processBlock raw = some (LexNode.heading lv tx ::
        (if strip (restLines (strip raw)) = [] then []
         else [LexNode.paragraph (strip (restLines (strip raw)))]))) ∧
    lexicalChildren (PyContent.str "## Sub\nmore on same line") =
      some [LexNode.heading 2 "Sub".data,
        LexNode.paragraph "more on same line".data] := by
  constructor
  · intro raw h1 h2
    exact ⟨_, _, processBlock_heading raw h1 h2⟩
  · decide

/-- C5 witness: applied to the concrete block `"# T\n  "` whose rest is
blank, yielding a heading and no paragraph. -/
theorem C5_heading_then_rest_witness :
    ∃ lv tx, processBlock ("# T\n  ").data = some (LexNode.heading lv tx ::
      (if strip (restLines (strip ("# T\n  ").data)) = [] then []
       else [LexNode.paragraph (strip (restLines (strip ("# T\n  ").data)))])) :=
  C5_heading_then_rest.1 ("# T\n  ").data (by decide) (by decide)

/-- C8: root children preserve source order of blocks: three trimmed
non-heading single-line blocks joined by blank lines come out as their
three paragraphs in the same order. -/
theorem C8_source_order (a b c : List Char)
    (ha1 : strip a = a) (ha2 : a ≠ []) (ha3 : ¬a.head? = some '#')
    (ha4 : ∀ ch ∈ a, ch ≠ '\n')
    (hb1 : strip b = b) (hb2 : b ≠ []) (hb3 : ¬b.head? = some '#')
    (hb4 : ∀ ch ∈ b, ch ≠ '\n')
    (hc1 : strip c = c) (hc2 : c ≠ []) (hc3 : ¬c.head? = some '#')
    (hc4 : ∀ ch ∈ c, ch ≠ '\n') :
    lexicalChildren (PyContent.str (String.mk
      (a ++ '\n' :: '\n' :: (b ++ '\n' :: '\n' :: c)))) =
      some [LexNode.paragraph a, LexNode.paragraph b, LexNode.paragraph c] := by
  have hrev : (a ++ '\n' :: '\n' :: (b ++ '\n' :: '\n' :: c)).reverse =
      c.reverse ++ (['\n'] ++ (['\n'] ++ (b.reverse ++
        (['\n'] ++ (['\n'] ++ a.reverse))))) := by
    simp
  have hw : strip (a ++ '\n' :: '\n' :: (b ++ '\n' :: '\n' :: c)) =
      a ++ '\n' :: '\n' :: (b ++ '\n' :: '\n' :: c) := by
    refine strip_eq_self_of_parts _ ?_ ?_
    · exact takeWhile_nil_append isSpace a _ (strip_fixed_parts a ha1).1 ha2
    · rw [hrev]
      refine takeWhile_nil_append isSpace c.reverse _
        (strip_fixed_parts c hc1).2 ?_
      simpa using hc2
  have hpa : processBlock a = some [LexNode.paragraph a] := by
    have hp := processBlock_paragraph a (by rw [ha1]; exact ha2)
      (by rw [ha1]; exact ha3)
    rwa [ha1] at hp
  have hpb : processBlock b = some [LexNode.paragraph b] := by
    have hp := processBlock_paragraph b (by rw [hb1]; exact hb2)
      (by rw [hb1]; exact hb3)
    rwa [hb1] at hp
  have hpc : processBlock c = some [LexNode.paragraph c] := by
    have hp := processBlock_paragraph c (by rw [hc1]; exact hc2)
      (by rw [hc1]; exact hc3)
    rwa [hc1] at hp
  have h3 : childrenOfBlocks [c] = some ([LexNode.paragraph c] ++ []) :=
    childrenOfBlocks_cons c [] [LexNode.paragraph c] [] hpc rfl
  have h2 : childrenOfBlocks [b, c] =
      some ([LexNode.paragraph b] ++ ([LexNode.paragraph c] ++ [])) :=
    childrenOfBlocks_cons b [c] [LexNode.paragraph b]
      ([LexNode.paragraph c] ++ []) hpb h3
  have h1 : childrenOfBlocks [a, b, c] =
      some ([LexNode.paragraph a] ++
        ([LexNode.paragraph b] ++ ([LexNode.paragraph c] ++ []))) :=
    childrenOfBlocks_cons a [b, c] [LexNode.paragraph a]
      ([LexNode.paragraph b] ++ ([LexNode.paragraph c] ++ [])) hpa h2
  rw [lexicalChildren,
    show coerceContent (PyContent.str (String.mk
      (a ++ '\n' :: '\n' :: (b ++ '\n' :: '\n' :: c)))) =
      a ++ '\n' :: '\n' :: (b ++ '\n' :: '\n' :: c) from rfl,
    hw, splitNN_append a _ ha4, splitNN_append b c hb4,
    splitNN_no_sep c (hasNN_of_no_newline c hc4), h1]
  rfl

/-- C8 witness: the three concrete blocks `A`, `B`, `C`. -/
theorem C8_source_order_witness :
    lexicalChildren (PyContent.str (String.mk
      (['A'] ++ '\n' :: '\n' :: (['B'] ++ '\n' :: '\n' :: ['C'])))) =
      some [LexNode.paragraph ['A'], LexNode.paragraph ['B'],
        LexNode.paragraph ['C']] :=
  C8_source_order ['A'] ['B'] ['C']
    (by decide) (by decide) (by decide) (by decide)
    (by decide) (by decide) (by decide) (by decide)
    (by decide) (by decide) (by decide) (by decide)

end BlogCore

namespace StateStore

/-- C10: `clear_history` sets the `chat_history` entry to the empty
list and leaves every other entry (such as `topics` and `last_updated`)
unchanged; unlike `add_topics`, which refreshes `last_updated` with the
current time. -/
theorem C10_clear_history_frame (st : List (String × JVal)) :
    getKey (clear_history st) "chat_history" = some (JVal.arr []) ∧
    (∀ k : String, k ≠ "chat_history" →
      getKey (clear_history st) k = getKey st k) ∧
    (∀ (topics : List String) (now : String),
      getKey (add_topics st topics now) "last_updated" =
        some (JVal.str now)) := by
  refine ⟨getKey_setKey_same st "chat_history" (JVal.arr []), ?_, ?_⟩
  · intro k hk
    exact getKey_setKey_ne st "chat_history" (JVal.arr []) k hk
  · intro topics now
    exact getKey_setKey_same _ "last_updated" (JVal.str now)

/-- C10 witness: on a concrete state, `last_updated` survives
`clear_history` unchanged. -/
theorem C10_clear_history_frame_witness :
    getKey (clear_history [("chat_history", JVal.arr [JVal.str "m"]),
        ("last_updated", JVal.str "t")]) "last_updated" =
      getKey [("chat_history", JVal.arr [JVal.str "m"]),
        ("last_updated", JVal.str "t")] "last_updated" :=
  (C10_clear_history_frame [("chat_history", JVal.arr [JVal.str "m"]),
    ("last_updated", JVal.str "t")]).2.1 "last_updated" (by decide)

end StateStore
